import Mathlib

/-!
Shallow embedding of the rpmlint polkit checks (`CheckPolkitPrivs.py` and
`Whitelisting.py`).  Python strings are Lean `String`s, dictionaries are
association lists kept in insertion order, file contents are `List Nat`
byte sequences behind an abstract file system, exceptions are an
`Except` monad over `PyExc`, and the `hashlib` registry is an abstract
`Hashlib` structure (algorithm recognition plus hex-digest computation).
-/

namespace Polkit

/-- Python exceptions, distinguished as finely as the sources' `except`
clauses need. -/
inductive PyExc where
  | indexError
  | keyError
  | attrError
  | typeError
  | valueError
  | ioError (msg : String)
  | exception (msg : String)
deriving DecidableEq

/-- Abstract file system: maps a full path to its byte content; `none`
means opening the file raises `IOError`. -/
abbrev FileSys : Type := String → Option (List Nat)

/-- Abstract model of Python's `hashlib`: which algorithm names
`hashlib.new` accepts, and the hex digest an algorithm yields on a byte
content. -/
structure Hashlib where
  supported : String → Bool
  hexdigest : String → List Nat → String

/-- Model of `str(e)` for the `IOError` raised when opening `p` fails. -/
def ioErrMsg (p : String) : String := "No such file or directory: " ++ p

/-- Helper for the split functions: push a character onto the first
piece of a split result. -/
def consHead (c : Char) : List (List Char) → List (List Char)
  | [] => [[c]]
  | h :: t => (c :: h) :: t

/-- Python `s.split(sep)` for a one-character separator, on char lists
(empty pieces are preserved, as in Python). -/
def pySplitChar (sep : Char) : List Char → List (List Char)
  | [] => [[]]
  | c :: rest =>
    if c = sep then [] :: pySplitChar sep rest
    else consHead c (pySplitChar sep rest)

/-- Python `s.split(sep, 1)`: at most one split. -/
def pySplit1Char (sep : Char) : List Char → List (List Char)
  | [] => [[]]
  | c :: rest =>
    if c = sep then [[], rest]
    else consHead c (pySplit1Char sep rest)

/-- Python `s.isdigit()` (nonempty and all digits; restricted to ASCII
digits in this embedding). -/
def pyIsdigit (l : List Char) : Bool := !l.isEmpty && l.all (·.isDigit)

def isPrefixOfChars : List Char → List Char → Bool
  | [], _ => true
  | _ :: _, [] => false
  | a :: as, b :: bs => a == b && isPrefixOfChars as bs

/-- Python `s.startswith(pre)`; also models `s.find(pre) == 0`. -/
def pyStartsWith (s pre : String) : Bool := isPrefixOfChars pre.data s.data

/-- Hex digit characters, for stating what a valid hex digest can
consist of. -/
def isHexDigitChar (c : Char) : Bool :=
  c.isDigit || (('a' ≤ c) && (c ≤ 'f')) || (('A' ≤ c) && (c ≤ 'F'))

/-- Python dict lookup on an insertion-ordered association list. -/
def alistLookup {α : Type} : List (String × α) → String → Option α
  | [], _ => none
  | (k, v) :: rest, key => if k = key then some v else alistLookup rest key

/-- Python dict assignment `d[k] = v`: replace in place, else append. -/
def alistSet {α : Type} : List (String × α) → String → α → List (String × α)
  | [], k, v => [(k, v)]
  | (k', v') :: rest, k, v =>
    if k' = k then (k, v) :: rest else (k', v') :: alistSet rest k v

/-- Whitelisting.DigestVerificationResult. -/
structure DigestVerificationResult where
  m_path : String
  m_alg : String
  m_expected : String
  m_encountered : String
deriving DecidableEq

/-- DigestVerificationResult.matches. -/
def DigestVerificationResult.matches (r : DigestVerificationResult) : Bool :=
  r.m_expected == r.m_encountered

/-- Whitelisting.AuditEntry: bug id, comment, digests dict. -/
structure AuditEntry where
  m_bug : String
  m_comment : String
  m_digests : List (String × String)
deriving DecidableEq

/-- The bug-tracker tags accepted by AuditEntry._verifyBugNr. -/
def recognizedTrackers : List String := ["bsc", "boo", "bnc"]

/-- AuditEntry._verifyBugNr as a boolean; the method raises exactly when
this is false. -/
def verifyBugNr (bug : String) : Bool :=
  match pySplitChar '#' bug.data with
  | [pre, num] => recognizedTrackers.contains (String.mk pre) && pyIsdigit num
  | _ => false

/-- AuditEntry.__init__ (stores the bug id, then validates it). -/
def AuditEntry.make (bug : String) : Except PyExc AuditEntry :=
  if verifyBugNr bug then .ok ⟨bug, "", []⟩
  else .error (.exception ("Bad bug nr# '" ++ bug ++ "'"))

/-- AuditEntry.isSkipDigest. -/
def isSkipDigest (d : String) : Bool := d == "skip:<none>"

/-- AuditEntry._verifyDigestSyntax. -/
def verifyDigestSyntax (hl : Hashlib) (d : String) : Except PyExc Unit :=
  if isSkipDigest d then .ok ()
  else
    match pySplitChar ':' d.data with
    | [alg, _] =>
      if hl.supported (String.mk alg) then .ok ()
      else .error (.exception ("Bad digest algorithm in " ++ d))
    | _ => .error (.exception ("Bad digest specification " ++ d))

/-- AuditEntry._verifyPath (`os.path.sep` is "/" on the target
platform). -/
def verifyPath (p : String) : Except PyExc Unit :=
  if pyStartsWith p "/" then .ok ()
  else .error (.exception ("Bad whitelisting path " ++ p))

/-- The validation loop of AuditEntry.setDigests. -/
def verifyDigests (hl : Hashlib) : List (String × String) → Except PyExc Unit
  | [] => .ok ()
  | (p, d) :: rest =>
    match verifyPath p with
    | .error e => .error e
    | .ok _ =>
      match verifyDigestSyntax hl d with
      | .error e => .error e
      | .ok _ => verifyDigests hl rest

/-- AuditEntry.setDigests. -/
def AuditEntry.setDigests (hl : Hashlib) (e : AuditEntry)
    (digests : List (String × String)) : Except PyExc AuditEntry :=
  match verifyDigests hl digests with
  | .error err => .error err
  | .ok _ => .ok { e with m_digests := digests }

/-- The digest loop of AuditEntry.compareDigests, one dict item at a
time.  `hashlib.new` and the file read sit inside a try that catches
only `IOError` (turned into an `"error:" + str(e)` encountered value);
a `ValueError` from `hashlib.new`, or the tuple-unpacking failure on a
spec without ":", propagates. -/
def compareDigestsAux (hl : Hashlib) (fs : FileSys) (dirName : String) :
    List (String × String) → Except PyExc (List DigestVerificationResult)
  | [] => .ok []
  | (path, digest) :: rest =>
    if isSkipDigest digest then compareDigestsAux hl fs dirName rest
    else
      match pySplit1Char ':' digest.data with
      | [algL, expectedL] =>
        let alg := String.mk algL
        let encountered : Except PyExc String :=
          if hl.supported alg then
            match fs (dirName ++ path) with
            | some content => .ok (hl.hexdigest alg content)
            | none => .ok ("error:" ++ ioErrMsg (dirName ++ path))
          else .error .valueError
        match encountered with
        | .error e => .error e
        | .ok enc =>
          match compareDigestsAux hl fs dirName rest with
          | .error e => .error e
          | .ok rs => .ok (⟨path, alg, String.mk expectedL, enc⟩ :: rs)
      | _ => .error .valueError

/-- AuditEntry.compareDigests: overall boolean is the conjunction of
the non-skipped results' matches. -/
def compareDigests (hl : Hashlib) (fs : FileSys) (dirName : String)
    (digests : List (String × String)) :
    Except PyExc (Bool × List DigestVerificationResult) :=
  match compareDigestsAux hl fs dirName digests with
  | .error e => .error e
  | .ok rs => .ok (rs.all DigestVerificationResult.matches, rs)

/-- Whitelisting.WhitelistEntry. -/
structure WhitelistEntry where
  m_package : String
  m_audits : List AuditEntry
deriving DecidableEq

/-- One audit sub-entry of the whitelist JSON ("comment", "digests"). -/
structure AuditData where
  comment : Option String
  digests : List (String × String)
deriving DecidableEq

/-- One package entry of the whitelist JSON ("audits"). -/
structure PkgConfig where
  audits : List (String × AuditData)
deriving DecidableEq

/-- WhitelistParser._parseAuditEntry. -/
def parseAuditEntry (hl : Hashlib) (bug : String) (data : AuditData) :
    Except PyExc AuditEntry :=
  match AuditEntry.make bug with
  | .error e => .error e
  | .ok ret0 =>
    let ret1 :=
      match data.comment with
      | some c => if c = "" then ret0 else { ret0 with m_comment := c }
      | none => ret0
    if data.digests.isEmpty then
      .error (.exception ("no 'digests' entry for '" ++ bug ++ "'"))
    else AuditEntry.setDigests hl ret1 data.digests

/-- The audits loop of WhitelistParser._parseWhitelistEntry (a failing
audit entry is re-raised in the source with a longer message; the
error is propagated unchanged here). -/
def parseAudits (hl : Hashlib) (acc : WhitelistEntry) :
    List (String × AuditData) → Except PyExc WhitelistEntry
  | [] => .ok acc
  | (bug, data) :: rest =>
    match parseAuditEntry hl bug data with
    | .error e => .error e
    | .ok audit =>
      parseAudits hl { acc with m_audits := acc.m_audits ++ [audit] } rest

/-- WhitelistParser._parseWhitelistEntry. -/
def parseWhitelistEntry (hl : Hashlib) (package : String) (config : PkgConfig) :
    Except PyExc WhitelistEntry :=
  if config.audits.isEmpty then
    .error (.exception ("no 'audits' entries for package " ++ package))
  else parseAudits hl ⟨package, []⟩ config.audits

/-- `ret.setdefault(path, []).append(entry)` of WhitelistParser.parse. -/
def indexAppend : List (String × List WhitelistEntry) → String → WhitelistEntry →
    List (String × List WhitelistEntry)
  | [], path, e => [(path, [e])]
  | (k, v) :: rest, path, e =>
    if k = path then (k, v ++ [e]) :: rest else (k, v) :: indexAppend rest path e

/-- The two nested path-index loops of WhitelistParser.parse: the entry
is appended once per (audit, path) occurrence. -/
def indexEntry (ret : List (String × List WhitelistEntry)) (entry : WhitelistEntry) :
    List (String × List WhitelistEntry) :=
  entry.m_audits.foldl
    (fun r a => a.m_digests.foldl (fun r' pd => indexAppend r' pd.1 entry) r) ret

/-- WhitelistParser.parse over the decoded JSON document (any entry
failure aborts the whole parse; the outer handler re-raises). -/
def parseWhitelist (hl : Hashlib) :
    List (String × PkgConfig) → List (String × List WhitelistEntry) →
    Except PyExc (List (String × List WhitelistEntry))
  | [], ret => .ok ret
  | (pkg, config) :: rest, ret =>
    match parseWhitelistEntry hl pkg config with
    | .error e => .error e
    | .ok entry => parseWhitelist hl rest (indexEntry ret entry)

/-- One record of an "audits" list in the flat rules-whitelist JSON. -/
structure RuleAudit where
  bug : String
  comment : String
  digest : String
deriving DecidableEq

/-- One record of the flat rules-whitelist JSON list;
`skipDigestCheck` is `entry.get("skip-digest-check", False)` and
`audits` is `entry.get("audits")` (absent key gives `None`). -/
structure RulesEntryJson where
  path : String
  package : String
  skipDigestCheck : Bool
  audits : Option (List RuleAudit)
deriving DecidableEq

/-- The per-package value stored by _parse_rules_whitelist_entry. -/
structure RulesPkgData where
  skipDigestCheck : Bool
  audits : Option (List RuleAudit)
deriving DecidableEq

/-- `self.rules`: path, then package, to the whitelisting data. -/
abbrev RulesIndex : Type := List (String × List (String × RulesPkgData))

/-- PolkitCheck._parse_rules_whitelist_entry; the boolean reports the
duplicate-entry diagnostic printed to stderr in the source (true means
the entry was discarded as a duplicate). -/
def parseRulesWhitelistEntry (rules : RulesIndex) (e : RulesEntryJson) :
    RulesIndex × Bool :=
  let pkgDict := (alistLookup rules e.path).getD []
  match alistLookup pkgDict e.package with
  | some _ => (rules, true)
  | none =>
    (alistSet rules e.path
      (pkgDict ++ [(e.package, ⟨e.skipDigestCheck, e.audits⟩)]), false)

/-- The loop of _parse_rules_whitelist over the JSON list, collecting
the duplicate diagnostics as (path, package) pairs. -/
def parseRulesWhitelist : List RulesEntryJson → RulesIndex →
    RulesIndex × List (String × String)
  | [], rules => (rules, [])
  | e :: rest, rules =>
    let step := parseRulesWhitelistEntry rules e
    let next := parseRulesWhitelist rest step.1
    (next.1, (if step.2 then [(e.path, e.package)] else []) ++ next.2)

/-- The lookup check_rules performs: `self.rules.get(f)` then
`pkgs.get(pkg.name)`. -/
def rulesLookup (rules : RulesIndex) (path pkg : String) : Option RulesPkgData :=
  match alistLookup rules path with
  | none => none
  | some pd => alistLookup pd pkg

/-- The findings the check emits (the detail string carries the action
settings, or the file path). -/
inductive Finding where
  | unauthorizedFile (detail : String)
  | unauthorizedPrivilege (detail : String)
  | untrackedPrivilege (detail : String)
  | cantAcquirePrivilege (detail : String)
  | unauthorizedRules (path : String)
  | changedRules (path : String)
  | rpmlintException (detail : String)
deriving DecidableEq

/-- PolkitCheck._checkDigest.  An empty spec, a spec without ":" or an
unknown algorithm prints a diagnostic and yields False; the file open
is not guarded by any handler, so a missing file raises `IOError`. -/
def checkDigest (hl : Hashlib) (fs : FileSys) (dirName pkgName path digestSpec : String) :
    Except PyExc Bool :=
  if digestSpec = "" then .ok false
  else
    match pySplit1Char ':' digestSpec.data with
    | [algL, digestL] =>
      if hl.supported (String.mk algL) then
        match fs (dirName ++ path) with
        | some content => .ok (hl.hexdigest (String.mk algL) content == String.mk digestL)
        | none => .error (.ioError (ioErrMsg (dirName ++ path)))
      else .ok false
    | _ => .ok false

/-- The audits loop of check_rules: stop at the first audit whose
digest matches; `reversed(...)` is applied by the caller. -/
def scanAudits (hl : Hashlib) (fs : FileSys) (dirName pkgName f : String) :
    List RuleAudit → Except PyExc Bool
  | [] => .ok false
  | a :: rest =>
    match checkDigest hl fs dirName pkgName f a.digest with
    | .error e => .error e
    | .ok true => .ok true
    | .ok false => scanAudits hl fs dirName pkgName f rest

def ruleDirs : List String := ["/etc/polkit-1/rules.d/", "/usr/share/polkit-1/rules.d/"]

/-- PolkitCheck.check_rules, for a single non-ghost file of the
package: the finding emitted for it, if any. -/
def checkRulesFile (hl : Hashlib) (fs : FileSys) (rules : RulesIndex)
    (dirName pkgName f : String) : Except PyExc (Option Finding) :=
  if !(ruleDirs.any (fun d => pyStartsWith f d)) then .ok none
  else
    match alistLookup rules f with
    | none => .ok (some (.unauthorizedRules f))
    | some pd =>
      match alistLookup pd pkgName with
      | none => .ok (some (.unauthorizedRules f))
      | some entry =>
        if entry.skipDigestCheck then .ok none
        else
          match entry.audits with
          | none => .error .typeError
          | some auds =>
            match scanAudits hl fs dirName pkgName f auds.reverse with
            | .error e => .error e
            | .ok true => .ok none
            | .ok false => .ok (some (.changedRules f))

/-- A child node of a defaults element: an element with a node name and
the data of its first child (none when it has no child), or any other
node type, which the loop skips. -/
inductive DNode where
  | element (name : String) (firstChildData : Option String)
  | other
deriving DecidableEq

/-- One action element of an actions XML file: its id attribute and the
list of its "defaults" descendant elements (each a list of child
nodes). -/
structure PolkitAction where
  id : String
  defaultsElems : List (List DNode)
deriving DecidableEq

def allowTypes : List String := ["allow_any", "allow_inactive", "allow_active"]

/-- Python list indexing `[0]`: an empty list raises IndexError. -/
def pyIndex0 {α : Type} : List α → Except PyExc α
  | [] => .error .indexError
  | x :: _ => .ok x

/-- The defaults-children loop of check_action; `i.firstChild.data` on
a childless element raises AttributeError. -/
def collectSettings : List DNode → List (String × String) →
    Except PyExc (List (String × String))
  | [], settings => .ok settings
  | DNode.other :: rest, settings => collectSettings rest settings
  | DNode.element name data :: rest, settings =>
    if allowTypes.contains name then
      match data with
      | some d => collectSettings rest (alistSet settings name d)
      | none => .error .attrError
    else collectSettings rest settings

/-- The mutable state of check_action's classification loop. -/
structure EvalState where
  settings : List (String × String)
  foundunauthorized : Bool
  foundno : Bool
  foundundef : Bool
deriving DecidableEq

/-- The per-context body of check_action's classification loop
(`settings[i].find("auth_admin") != 0` holds exactly when the setting
does not start with "auth_admin"). -/
def processType (st : EvalState) (i : String) : EvalState :=
  match alistLookup st.settings i with
  | none => { st with settings := alistSet st.settings i "??", foundundef := true }
  | some v =>
    if pyStartsWith v "auth_admin" then st
    else if v = "no" then { st with foundno := true }
    else { st with foundunauthorized := true }

/-- The `"{} ({}:{}:{})"` action_settings format string. -/
def actionSettingsStr (id : String) (settings : List (String × String)) : String :=
  id ++ " (" ++ (alistLookup settings "allow_any").getD "" ++ ":" ++
    (alistLookup settings "allow_inactive").getD "" ++ ":" ++
    (alistLookup settings "allow_active").getD "" ++ ")"

/-- The classification loop and reporting tail of check_action. -/
def classifyAction (id : String) (settings0 : List (String × String)) (fu0 : Bool) :
    List Finding :=
  let st := allowTypes.foldl processType ⟨settings0, fu0, false, false⟩
  let detail := actionSettingsStr id st.settings
  (if st.foundunauthorized then [Finding.unauthorizedPrivilege detail]
   else [Finding.untrackedPrivilege detail]) ++
  (if st.foundno || st.foundundef then [Finding.cantAcquirePrivilege detail] else [])

/-- PolkitCheck.check_action.  The try block around the defaults lookup
catches only KeyError; indexing an empty `getElementsByTagName` result
with `[0]` raises IndexError, which therefore propagates. -/
def checkAction (privs : List String) (a : PolkitAction) : Except PyExc (List Finding) :=
  if privs.contains a.id then .ok []
  else
    let tryRes : Except PyExc (List (String × String)) :=
      match pyIndex0 a.defaultsElems with
      | .error e => .error e
      | .ok ds => collectSettings ds []
    match tryRes with
    | .ok settings => .ok (classifyAction a.id settings false)
    | .error PyExc.keyError => .ok (classifyAction a.id [] true)
    | .error e => .error e

/-- The per-file loop body of check_actions: any exception raised while
handling the file's actions is caught and reported as a generic
rpmlint-exception finding for the file. -/
def checkActionsFile (privs : List String) (f : String) :
    List PolkitAction → List Finding
  | [] => []
  | a :: rest =>
    match checkAction privs a with
    | .ok fnds => fnds ++ checkActionsFile privs f rest
    | .error _ => [Finding.rpmlintException f]

/-- Python `sep.join(...)` with the positional arguments the caller
passes: two arguments is a TypeError (`str.join` takes exactly one);
a correct one-argument string call joins the string's characters. -/
def pyStrJoinCall (sep : String) (args : List String) : Except PyExc String :=
  match args with
  | [s] => .ok (String.intercalate sep (s.data.map Char.toString))
  | _ => .error .typeError

def profiles : List String := ["restrictive", "standard", "relaxed"]

/-- The inner profile loop of check_perm_files, for one base name: the
chosen profile path, or none when the loop's else branch runs.  The
source computes each candidate with `'.'.join(f, profile)`. -/
def selectProfileLoop (ex : String → Bool) (f : String) :
    List String → Except PyExc (Option String)
  | [] => .ok none
  | profile :: rest =>
    match pyStrJoinCall "." [f, profile] with
    | .error e => .error e
    | .ok path =>
      if ex path then .ok (some path) else selectProfileLoop ex f rest

/-- Per-base-name file selection of check_perm_files (`f` is the
already assembled `pkg.dirName() + "/etc/polkit-default-privs.d/" +
base`, `ex` is `os.path.exists`): the file that ends up parsed by
_parse_privs_file. -/
def selectPermFile (ex : String → Bool) (f : String) : Except PyExc String :=
  match selectProfileLoop ex f profiles with
  | .error e => .error e
  | .ok (some path) => .ok path
  | .ok none => .ok f

/-- A concrete hash registry for witnesses: it recognizes only
"sha256", whose digest is a function of the byte content's length. -/
def hlTest : Hashlib :=
  { supported := fun a => a == "sha256"
    hexdigest := fun _ c => "d" ++ toString c.length }

/-- A concrete file system for witnesses: one rules file with a
one-byte content. -/
def fsW : FileSys := fun p =>
  if p = "/r/etc/polkit-1/rules.d/90-x.rules" then some [7] else none

/-- A concrete rules index for witnesses, with two audit records in
insertion order; only the digest of the second (newer) one matches the
content served by `fsW` under `hlTest`. -/
def rulesW : RulesIndex :=
  [("/etc/polkit-1/rules.d/90-x.rules",
    [("P", ⟨false, some [⟨"bsc#1", "", "sha256:zzz"⟩, ⟨"bsc#2", "", "sha256:d1"⟩]⟩)])]

/-- A whitelist document in which one package claims the same path from
two audit entries. -/
def dupDocW : List (String × PkgConfig) :=
  [("pkg", ⟨[("bsc#1", ⟨none, [("/a", "sha256:aa")]⟩),
             ("bsc#2", ⟨none, [("/a", "sha256:bb")]⟩)]⟩)]

/-- The WhitelistEntry that parsing `dupDocW` produces. -/
def dupEntryW : WhitelistEntry :=
  ⟨"pkg", [⟨"bsc#1", "", [("/a", "sha256:aa")]⟩, ⟨"bsc#2", "", [("/a", "sha256:bb")]⟩]⟩

/-- A flat rules-whitelist record whose digest algorithm is not in the
hash registry. -/
def badAlgEntry : RulesEntryJson :=
  { path := "/etc/polkit-1/rules.d/90-x.rules", package := "pkg",
    skipDigestCheck := false,
    audits := some [⟨"bsc#1", "c", "sha9999:deadbeef"⟩] }

theorem pySplitChar_ne_nil (sep : Char) (l : List Char) : pySplitChar sep l ≠ [] := by
  cases l with
  | nil => simp [pySplitChar]
  | cons c rest =>
    simp only [pySplitChar]
    split
    · simp
    · cases h : pySplitChar sep rest <;> simp [consHead]

theorem pySplitChar_single_iff (sep : Char) :
    ∀ l x, pySplitChar sep l = [x] ↔ (l = x ∧ sep ∉ x) := by
  intro l
  induction l with
  | nil =>
    intro x
    constructor
    · intro h
      simp only [pySplitChar] at h
      obtain rfl : ([] : List Char) = x := by simpa using h.symm
      exact ⟨rfl, by simp⟩
    · rintro ⟨rfl, -⟩
      rfl
  | cons c rest ih =>
    intro x
    by_cases hc : c = sep
    · subst hc
      simp only [pySplitChar, if_pos rfl]
      constructor
      · intro h
        have : pySplitChar c rest = [] := by
          have := congrArg List.tail h
          simpa using this
        exact absurd this (pySplitChar_ne_nil c rest)
      · rintro ⟨rfl, hmem⟩
        exact absurd (List.mem_cons_self c rest) hmem
    · simp only [pySplitChar, if_neg hc]
      cases hrest : pySplitChar sep rest with
      | nil => exact absurd hrest (pySplitChar_ne_nil sep rest)
      | cons h t =>
        simp only [consHead]
        constructor
        · intro he
          obtain ⟨he1, he2⟩ := List.cons.injEq _ _ _ _ ▸ he
          -- he : (c :: h) :: t = [x]
          have hx : x = c :: h := by
            have := congrArg (fun l => l.headD []) he
            simpa using this.symm
          have ht : t = [] := by
            have := congrArg List.tail he
            simpa using this
          subst ht
          obtain ⟨hr, hm⟩ := (ih h).mp hrest
          subst hr
          refine ⟨by rw [hx], ?_⟩
          rw [hx]
          intro hmem
          rcases List.mem_cons.mp hmem with h1 | h2
          · exact hc h1.symm
          · exact hm h2
        · rintro ⟨rfl, hmem⟩
          have hm' : sep ∉ rest := fun hr => hmem (List.mem_cons_of_mem c hr)
          have : pySplitChar sep rest = [rest] := (ih rest).mpr ⟨rfl, hm'⟩
          rw [hrest] at this
          obtain ⟨rfl, rfl⟩ : h = rest ∧ t = [] := by simpa using this
          rfl

theorem pySplitChar_pair_iff (sep : Char) :
    ∀ l a b, pySplitChar sep l = [a, b] ↔
      (l = a ++ sep :: b ∧ sep ∉ a ∧ sep ∉ b) := by
  intro l
  induction l with
  | nil =>
    intro a b
    constructor
    · intro h; simp [pySplitChar] at h
    · rintro ⟨h, -, -⟩
      exact absurd h (by simp)
  | cons c rest ih =>
    intro a b
    by_cases hc : c = sep
    · subst hc
      simp only [pySplitChar, if_pos rfl]
      constructor
      · intro h
        have ha : a = [] := by
          have := congrArg (fun l => l.headD [('x' : Char)]) h
          simpa using this.symm
        have ht : pySplitChar c rest = [b] := by
          have := congrArg List.tail h
          simpa using this
        obtain ⟨rfl, hm⟩ := (pySplitChar_single_iff c rest b).mp ht
        subst ha
        exact ⟨rfl, by simp, hm⟩
      · rintro ⟨he, hma, hmb⟩
        cases a with
        | nil =>
          simp only [List.nil_append] at he
          have hrb : rest = b := by simpa using he
          subst hrb
          rw [(pySplitChar_single_iff c rest rest).mpr ⟨rfl, hmb⟩]
          simp
        | cons a' as =>
          exfalso
          have : c = a' := by
            have := congrArg (fun l => l.headD 'x') he
            simpa using this
          exact hma (this ▸ List.mem_cons_self a' as)
    · simp only [pySplitChar, if_neg hc]
      cases hrest : pySplitChar sep rest with
      | nil => exact absurd hrest (pySplitChar_ne_nil sep rest)
      | cons h t =>
        simp only [consHead]
        constructor
        · intro he
          have hx : a = c :: h := by
            have := congrArg (fun l => l.headD []) he
            simpa using this.symm
          have ht : t = [b] := by
            have := congrArg List.tail he
            simpa using this
          subst ht
          obtain ⟨hr, hma, hmb⟩ := (ih h b).mp hrest
          subst hr
          subst hx
          refine ⟨by simp, ?_, hmb⟩
          intro hmem
          rcases List.mem_cons.mp hmem with h1 | h2
          · exact hc h1.symm
          · exact hma h2
        · rintro ⟨he, hma, hmb⟩
          cases a with
          | nil =>
            exfalso
            simp only [List.nil_append] at he
            have : c = sep := by
              have := congrArg (fun l => l.headD 'x') he
              simpa using this
            exact hc this
          | cons a' as =>
            have hca : c = a' := by
              have := congrArg (fun l => l.headD 'x') he
              simpa using this
            subst hca
            have hre : rest = as ++ sep :: b := by
              have := congrArg List.tail he
              simpa using this
            have hmas : sep ∉ as := fun hx => hma (List.mem_cons_of_mem c hx)
            have : pySplitChar sep rest = [as, b] :=
              (ih as b).mpr ⟨hre, hmas, hmb⟩
            rw [hrest] at this
            obtain ⟨rfl, rfl⟩ : h = as ∧ t = [b] := by simpa using this
            rfl

theorem pySplit1Char_no_sep (sep : Char) :
    ∀ l, sep ∉ l → pySplit1Char sep l = [l] := by
  intro l
  induction l with
  | nil => intro _; rfl
  | cons c rest ih =>
    intro h
    have hc : ¬(c = sep) := fun e => h (e ▸ List.mem_cons_self c rest)
    simp only [pySplit1Char, if_neg hc]
    rw [ih (fun hm => h (List.mem_cons_of_mem c hm))]
    rfl

theorem pySplit1Char_append (sep : Char) :
    ∀ a b, sep ∉ a → pySplit1Char sep (a ++ sep :: b) = [a, b] := by
  intro a
  induction a with
  | nil => intro b _; simp [pySplit1Char]
  | cons c as ih =>
    intro b h
    have hc : ¬(c = sep) := fun e => h (e ▸ List.mem_cons_self c as)
    simp only [List.cons_append, pySplit1Char, if_neg hc]
    show consHead c (pySplit1Char sep (as ++ sep :: b)) = [c :: as, b]
    rw [ih b (fun hm => h (List.mem_cons_of_mem c hm))]
    rfl

theorem alistLookup_set_self {α : Type} (l : List (String × α)) (k : String) (v : α) :
    alistLookup (alistSet l k v) k = some v := by
  induction l with
  | nil => simp [alistSet, alistLookup]
  | cons hd rest ih =>
    obtain ⟨k', v'⟩ := hd
    by_cases h : k' = k
    · subst h; simp [alistSet, alistLookup]
    · simp [alistSet, alistLookup, h, ih]

theorem alistLookup_set_other {α : Type} (l : List (String × α)) (k q : String) (v : α)
    (h : q ≠ k) : alistLookup (alistSet l k v) q = alistLookup l q := by
  induction l with
  | nil => simp [alistSet, alistLookup, Ne.symm h]
  | cons hd rest ih =>
    obtain ⟨k', v'⟩ := hd
    by_cases hk : k' = k
    · subst hk
      simp [alistSet, alistLookup, Ne.symm h]
    · by_cases hq : k' = q
      · subst hq; simp [alistSet, alistLookup, hk]
      · simp [alistSet, alistLookup, hk, hq, ih]

theorem alistLookup_append_self {α : Type} (l : List (String × α)) (k : String) (v : α)
    (h : alistLookup l k = none) : alistLookup (l ++ [(k, v)]) k = some v := by
  induction l with
  | nil => simp [alistLookup]
  | cons hd rest ih =>
    obtain ⟨k', v'⟩ := hd
    by_cases hk : k' = k
    · subst hk; simp [alistLookup] at h
    · simp only [alistLookup, if_neg hk] at h
      simp [alistLookup, hk, ih h]

theorem alistLookup_append_other {α : Type} (l : List (String × α)) (k q : String) (v : α)
    (h : q ≠ k) : alistLookup (l ++ [(k, v)]) q = alistLookup l q := by
  induction l with
  | nil => simp [alistLookup, Ne.symm h]
  | cons hd rest ih =>
    obtain ⟨k', v'⟩ := hd
    by_cases hq : k' = q
    · subst hq; simp [alistLookup]
    · simp [alistLookup, hq, ih]

theorem alist_key_unique {α : Type} :
    ∀ (l : List (String × α)), (l.map Prod.fst).Nodup →
    ∀ (p : String) (d d' : α), (p, d) ∈ l → (p, d') ∈ l → d = d' := by
  intro l
  induction l with
  | nil => intro _ p d d' h; simp at h
  | cons hd rest ih =>
    intro hnd p d d' h1 h2
    obtain ⟨k, v⟩ := hd
    simp only [List.map_cons, List.nodup_cons] at hnd
    obtain ⟨hk, hnd'⟩ := hnd
    rcases List.mem_cons.mp h1 with e1 | m1 <;> rcases List.mem_cons.mp h2 with e2 | m2
    · obtain ⟨rfl, rfl⟩ := Prod.mk.injEq _ _ _ _ ▸ e1
      obtain ⟨-, rfl⟩ := Prod.mk.injEq _ _ _ _ ▸ e2
      rfl
    · exfalso
      obtain ⟨rfl, -⟩ := Prod.mk.injEq _ _ _ _ ▸ e1
      exact hk (List.mem_map.mpr ⟨(p, d'), m2, rfl⟩)
    · exfalso
      obtain ⟨rfl, -⟩ := Prod.mk.injEq _ _ _ _ ▸ e2
      exact hk (List.mem_map.mpr ⟨(p, d), m1, rfl⟩)
    · exact ih hnd' p d d' m1 m2

theorem verifyDigests_cons (hl : Hashlib) (p d : String) (rest : List (String × String))
    (h : verifyDigests hl ((p, d) :: rest) = .ok ()) :
    verifyPath p = .ok () ∧ verifyDigestSyntax hl d = .ok () ∧
      verifyDigests hl rest = .ok () := by
  unfold verifyDigests at h
  cases hp : verifyPath p with
  | error e => rw [hp] at h; exact absurd h (by simp)
  | ok u =>
    rw [hp] at h
    cases hd : verifyDigestSyntax hl d with
    | error e => rw [hd] at h; exact absurd h (by simp)
    | ok u' => rw [hd] at h; exact ⟨rfl, rfl, h⟩

theorem verifyDigestSyntax_ok_not_skip (hl : Hashlib) (d : String)
    (hns : isSkipDigest d = false) (h : verifyDigestSyntax hl d = .ok ()) :
    ∃ alg hex : List Char, d.data = alg ++ ':' :: hex ∧ ':' ∉ alg ∧ ':' ∉ hex ∧
      hl.supported (String.mk alg) = true := by
  unfold verifyDigestSyntax at h
  rw [hns] at h
  simp only [Bool.false_eq_true, if_false] at h
  cases hsp : pySplitChar ':' d.data with
  | nil => exact absurd hsp (pySplitChar_ne_nil ':' d.data)
  | cons x t =>
    rw [hsp] at h
    cases t with
    | nil => simp at h
    | cons y t' =>
      cases t' with
      | nil =>
        obtain ⟨he, hx, hy⟩ := (pySplitChar_pair_iff ':' d.data x y).mp hsp
        by_cases hs : hl.supported (String.mk x) = true
        · exact ⟨x, y, he, hx, hy, hs⟩
        · exfalso
          simp [hs] at h
      | cons z t'' => simp at h

theorem compareDigestsAux_ok (hl : Hashlib) (fs : FileSys) (dirName : String) :
    ∀ digests, verifyDigests hl digests = .ok () →
    ∃ results, compareDigestsAux hl fs dirName digests = .ok results ∧
      results.map DigestVerificationResult.m_path =
        (digests.filter (fun pd => !isSkipDigest pd.2)).map Prod.fst := by
  intro digests
  induction digests with
  | nil => intro _; exact ⟨[], rfl, rfl⟩
  | cons hd tl ih =>
    intro hv
    obtain ⟨p, d⟩ := hd
    obtain ⟨hp, hd', htl⟩ := verifyDigests_cons hl p d tl hv
    obtain ⟨rs, hrs, hmap⟩ := ih htl
    by_cases hsk : isSkipDigest d = true
    · refine ⟨rs, ?_, ?_⟩
      · unfold compareDigestsAux
        rw [hsk]
        simpa using hrs
      · rw [hmap]
        simp [List.filter_cons, hsk]
    · have hns : isSkipDigest d = false := by simpa using hsk
      obtain ⟨alg, hex, he, hna, hnh, hsup⟩ :=
        verifyDigestSyntax_ok_not_skip hl d hns hd'
      have hsplit : pySplit1Char ':' d.data = [alg, hex] := by
        rw [he]; exact pySplit1Char_append ':' alg hex hna
      cases hfs : fs (dirName ++ p) with
      | some content =>
        refine ⟨⟨p, String.mk alg, String.mk hex, hl.hexdigest (String.mk alg) content⟩ :: rs,
          ?_, ?_⟩
        · unfold compareDigestsAux
          rw [hns, hsplit]
          simp only [Bool.false_eq_true, if_false, hsup, if_pos, hfs, hrs]
        · simp [List.filter_cons, hns, hmap]
      | none =>
        refine ⟨⟨p, String.mk alg, String.mk hex,
          "error:" ++ ioErrMsg (dirName ++ p)⟩ :: rs, ?_, ?_⟩
        · unfold compareDigestsAux
          rw [hns, hsplit]
          simp only [Bool.false_eq_true, if_false, hsup, if_pos, hfs, hrs]
        · simp [List.filter_cons, hns, hmap]

theorem checkDigest_total (hl : Hashlib) (fs : FileSys) (dirName pkgName f : String)
    (content : List Nat) (spec : String) (hrd : fs (dirName ++ f) = some content) :
    ∃ b, checkDigest hl fs dirName pkgName f spec = .ok b := by
  unfold checkDigest
  split
  · exact ⟨false, rfl⟩
  · split
    · split
      · rw [hrd]; exact ⟨_, rfl⟩
      · exact ⟨false, rfl⟩
    · exact ⟨false, rfl⟩

theorem scanAudits_true_iff (hl : Hashlib) (fs : FileSys) (dirName pkgName f : String)
    (content : List Nat) (hrd : fs (dirName ++ f) = some content) :
    ∀ l, (scanAudits hl fs dirName pkgName f l = .ok true ↔
      ∃ a ∈ l, checkDigest hl fs dirName pkgName f a.digest = .ok true) := by
  intro l
  induction l with
  | nil =>
    constructor
    · intro h; exact absurd h (by simp [scanAudits])
    · rintro ⟨a, ha, -⟩; simp at ha
  | cons a rest ih =>
    obtain ⟨b, hb⟩ := checkDigest_total hl fs dirName pkgName f content a.digest hrd
    constructor
    · intro h
      unfold scanAudits at h
      rw [hb] at h
      cases b with
      | true => exact ⟨a, List.mem_cons_self a rest, hb⟩
      | false =>
        obtain ⟨x, hx, hxd⟩ := ih.mp h
        exact ⟨x, List.mem_cons_of_mem a hx, hxd⟩
    · rintro ⟨x, hx, hxd⟩
      unfold scanAudits
      rw [hb]
      cases b with
      | true => rfl
      | false =>
        rcases List.mem_cons.mp hx with rfl | hx'
        · rw [hb] at hxd
          exact absurd hxd (by simp)
        · exact ih.mpr ⟨x, hx', hxd⟩

theorem scanAudits_false_iff (hl : Hashlib) (fs : FileSys) (dirName pkgName f : String)
    (content : List Nat) (hrd : fs (dirName ++ f) = some content) :
    ∀ l, (scanAudits hl fs dirName pkgName f l = .ok false ↔
      ∀ a ∈ l, checkDigest hl fs dirName pkgName f a.digest = .ok false) := by
  intro l
  induction l with
  | nil =>
    constructor
    · intro _ a ha; simp at ha
    · intro _; rfl
  | cons a rest ih =>
    obtain ⟨b, hb⟩ := checkDigest_total hl fs dirName pkgName f content a.digest hrd
    constructor
    · intro h
      unfold scanAudits at h
      rw [hb] at h
      cases b with
      | true => exact absurd h (by simp)
      | false =>
        intro x hx
        rcases List.mem_cons.mp hx with rfl | hx'
        · exact hb
        · exact ih.mp h x hx'
    · intro h
      unfold scanAudits
      rw [hb]
      have hba : b = false := by
        have := h a (List.mem_cons_self a rest)
        rw [hb] at this
        simpa using this
      subst hba
      exact ih.mpr (fun x hx => h x (List.mem_cons_of_mem a hx))

theorem scanAudits_total (hl : Hashlib) (fs : FileSys) (dirName pkgName f : String)
    (content : List Nat) (hrd : fs (dirName ++ f) = some content) :
    ∀ l, ∃ b, scanAudits hl fs dirName pkgName f l = .ok b := by
  intro l
  induction l with
  | nil => exact ⟨false, rfl⟩
  | cons a rest ih =>
    obtain ⟨b, hb⟩ := checkDigest_total hl fs dirName pkgName f content a.digest hrd
    obtain ⟨br, hbr⟩ := ih
    cases b with
    | true => exact ⟨true, by unfold scanAudits; rw [hb]⟩
    | false => exact ⟨br, by unfold scanAudits; rw [hb]; exact hbr⟩

/-- C1: the claim says an action (not in the baseline) without any
defaults element is classified Unauthorized.  In the code, indexing the
empty defaults NodeList raises IndexError, which the `except KeyError`
handler does not catch: check_action propagates the error, no
classification finding is produced, and check_actions turns the whole
file into a generic rpmlint-exception finding. -/
theorem missing_defaults_not_classified :
    checkAction [] ⟨"org.example.test", []⟩ = .error PyExc.indexError ∧
    checkActionsFile [] "/usr/share/polkit-1/actions/org.example.policy"
      [⟨"org.example.test", []⟩] =
      [Finding.rpmlintException "/usr/share/polkit-1/actions/org.example.policy"] :=
  ⟨rfl, rfl⟩

/-- C8: the claim says the per-base-name profile selection of
check_perm_files completes without error.  The source computes each
candidate with `'.'.join(f, profile)`, calling str.join with two
positional arguments, which raises TypeError on the very first profile
for every base name, before any existence check. -/
theorem perm_profile_selection_type_error :
    ∀ (ex : String → Bool) (f : String),
      selectPermFile ex f = .error PyExc.typeError := by
  intro ex f
  rfl

/-- C10: for a present session-context setting of an untracked action,
the classification-loop body treats the setting as
administrator-authentication (no flag raised) exactly when it starts
with "auth_admin"; a present setting without that start flags
no-acquire when it is exactly "no" and unauthorized otherwise. -/
theorem auth_admin_classification :
    (∀ (st : EvalState) (i v : String), alistLookup st.settings i = some v →
      pyStartsWith v "auth_admin" = true → processType st i = st) ∧
    (∀ (st : EvalState) (i v : String), alistLookup st.settings i = some v →
      pyStartsWith v "auth_admin" = false → v = "no" →
      processType st i = { st with foundno := true }) ∧
    (∀ (st : EvalState) (i v : String), alistLookup st.settings i = some v →
      pyStartsWith v "auth_admin" = false → v ≠ "no" →
      processType st i = { st with foundunauthorized := true }) ∧
    (∀ (s : List (String × String)) (i v : String), alistLookup s i = some v →
      (processType ⟨s, false, false, false⟩ i = ⟨s, false, false, false⟩ ↔
        pyStartsWith v "auth_admin" = true)) := by
  refine ⟨?_, ?_, ?_, ?_⟩
  · intro st i v hlk hs
    unfold processType
    rw [hlk]
    simp [hs]
  · intro st i v hlk hs hv
    subst hv
    unfold processType
    rw [hlk]
    simp [hs]
  · intro st i v hlk hs hv
    unfold processType
    rw [hlk]
    simp [hs, hv]
  · intro s i v hlk
    unfold processType
    rw [hlk]
    by_cases hs : pyStartsWith v "auth_admin" = true
    · simp [hs]
    · have hs' : pyStartsWith v "auth_admin" = false := by simpa using hs
      by_cases hv : v = "no" <;>
        simp [hs', hv, EvalState.mk.injEq]

/-- C10 witness: "auth_adminXYZ" counts as authorized (no flag), "no"
flags no-acquire, "yes" flags unauthorized. -/
theorem auth_admin_classification_witness :
    processType ⟨[("allow_any", "auth_adminXYZ")], false, false, false⟩ "allow_any" =
      ⟨[("allow_any", "auth_adminXYZ")], false, false, false⟩ ∧
    processType ⟨[("allow_any", "no")], false, false, false⟩ "allow_any" =
      ⟨[("allow_any", "no")], false, true, false⟩ ∧
    processType ⟨[("allow_any", "yes")], false, false, false⟩ "allow_any" =
      ⟨[("allow_any", "yes")], true, false, false⟩ :=
  ⟨auth_admin_classification.1 _ "allow_any" "auth_adminXYZ" rfl rfl,
   auth_admin_classification.2.1 _ "allow_any" "no" rfl rfl rfl,
   auth_admin_classification.2.2.1 _ "allow_any" "yes" rfl rfl (by decide)⟩

/-- C3: for a claimed, digest-checked rule file whose content is
readable, check_rules scans the audit records in reverse insertion
order and accepts at the first matching digest: it emits no finding
exactly when some record's digest matches, and emits the changed-rules
finding exactly when no record's digest matches. -/
theorem rules_reverse_scan (hl : Hashlib) (fs : FileSys) (rules : RulesIndex)
    (dirName pkgName f : String) (pd : List (String × RulesPkgData))
    (entry : RulesPkgData) (auds : List RuleAudit) (content : List Nat)
    (hdir : ruleDirs.any (fun d => pyStartsWith f d) = true)
    (h1 : alistLookup rules f = some pd)
    (h2 : alistLookup pd pkgName = some entry)
    (h3 : entry.skipDigestCheck = false)
    (h4 : entry.audits = some auds)
    (hrd : fs (dirName ++ f) = some content) :
    (checkRulesFile hl fs rules dirName pkgName f = .ok none ↔
      ∃ a ∈ auds, checkDigest hl fs dirName pkgName f a.digest = .ok true) ∧
    (checkRulesFile hl fs rules dirName pkgName f = .ok (some (Finding.changedRules f)) ↔
      ∀ a ∈ auds, checkDigest hl fs dirName pkgName f a.digest = .ok false) := by
  obtain ⟨b, hb⟩ := scanAudits_total hl fs dirName pkgName f content hrd auds.reverse
  have htrue := scanAudits_true_iff hl fs dirName pkgName f content hrd auds.reverse
  have hfalse := scanAudits_false_iff hl fs dirName pkgName f content hrd auds.reverse
  have hcrf : checkRulesFile hl fs rules dirName pkgName f =
      (if b then .ok none else .ok (some (Finding.changedRules f))) := by
    unfold checkRulesFile
    rw [hdir]
    simp only [Bool.not_true, Bool.false_eq_true, if_false, h1, h2, h3, h4, hb]
    cases b <;> rfl
  constructor
  · rw [hcrf]
    cases b with
    | true =>
      simp only [if_true]
      constructor
      · intro _
        obtain ⟨a, ha, had⟩ := htrue.mp hb
        exact ⟨a, List.mem_reverse.mp ha, had⟩
      · intro _; trivial
    | false =>
      simp only [Bool.false_eq_true, if_false]
      constructor
      · intro h; exact absurd h (by simp)
      · rintro ⟨a, ha, had⟩
        exfalso
        have hs := htrue.mpr ⟨a, List.mem_reverse.mpr ha, had⟩
        rw [hb] at hs
        exact absurd hs (by simp)
  · rw [hcrf]
    cases b with
    | true =>
      simp only [if_true]
      constructor
      · intro h; exact absurd h (by simp)
      · intro h
        exfalso
        have hs := hfalse.mpr (fun a ha => h a (List.mem_reverse.mp ha))
        rw [hb] at hs
        exact absurd hs (by simp)
    | false =>
      simp only [Bool.false_eq_true, if_false]
      constructor
      · intro _
        intro a ha
        exact hfalse.mp hb a (List.mem_reverse.mpr ha)
      · intro _; trivial

/-- C3 witness: with audit records [A(bsc#1, D1), A(bsc#2, D2)] in that
insertion order and a file matching D2 but not D1, the file is
accepted with no finding. -/
theorem rules_reverse_scan_witness :
    checkRulesFile hlTest fsW rulesW "/r" "P" "/etc/polkit-1/rules.d/90-x.rules" =
      .ok none := by
  refine (rules_reverse_scan hlTest fsW rulesW "/r" "P" "/etc/polkit-1/rules.d/90-x.rules"
    [("P", ⟨false, some [⟨"bsc#1", "", "sha256:zzz"⟩, ⟨"bsc#2", "", "sha256:d1"⟩]⟩)]
    ⟨false, some [⟨"bsc#1", "", "sha256:zzz"⟩, ⟨"bsc#2", "", "sha256:d1"⟩]⟩
    [⟨"bsc#1", "", "sha256:zzz"⟩, ⟨"bsc#2", "", "sha256:d1"⟩] [7]
    (by rfl) rfl rfl rfl rfl rfl).1.mpr ?_
  exact ⟨⟨"bsc#2", "", "sha256:d1"⟩, by simp, rfl⟩

/-- C5: for an AuditEntry whose digests dict passed setDigests
validation (and whose dict keys are unique, as dict keys are),
compareDigests succeeds; skip-sentinel paths never appear in the
result list, the overall boolean is the conjunction of the returned
results' matches (so a skip entry never makes it false), and when
every entry is the skip sentinel the boolean is vacuously true with an
empty result list. -/
theorem compareDigests_skip_semantics (hl : Hashlib) (fs : FileSys) (dirName : String)
    (digests : List (String × String))
    (hval : verifyDigests hl digests = .ok ())
    (hnd : (digests.map Prod.fst).Nodup) :
    ∃ b results, compareDigests hl fs dirName digests = .ok (b, results) ∧
      b = results.all DigestVerificationResult.matches ∧
      (∀ pd ∈ digests, isSkipDigest pd.2 = true →
        ∀ r ∈ results, r.m_path ≠ pd.1) ∧
      ((∀ pd ∈ digests, isSkipDigest pd.2 = true) → (b = true ∧ results = [])) := by
  obtain ⟨results, haux, hmap⟩ := compareDigestsAux_ok hl fs dirName digests hval
  refine ⟨results.all DigestVerificationResult.matches, results, ?_, rfl, ?_, ?_⟩
  · unfold compareDigests
    rw [haux]
  · rintro ⟨p, d⟩ hpd hskip r hr hpath
    have hmem : r.m_path ∈ (digests.filter (fun pd => !isSkipDigest pd.2)).map Prod.fst := by
      rw [← hmap]
      exact List.mem_map_of_mem _ hr
    obtain ⟨qd, hq, hqp⟩ := List.mem_map.mp hmem
    have hqmem : qd ∈ digests := List.mem_of_mem_filter hq
    have hqskip : isSkipDigest qd.2 = false := by
      have := List.of_mem_filter hq
      simpa using this
    obtain ⟨q1, q2⟩ := qd
    have hkey : q1 = p := by
      simpa using hqp.trans hpath
    subst hkey
    have : q2 = d := alist_key_unique digests hnd q1 q2 d hqmem hpd
    subst this
    rw [hskip] at hqskip
    exact absurd hqskip (by simp)
  · intro hall
    have hfil : digests.filter (fun pd => !isSkipDigest pd.2) = [] := by
      rw [List.filter_eq_nil_iff]
      intro a ha
      simp [hall a ha]
    rw [hfil] at hmap
    have hres : results = [] := by
      have : results.map DigestVerificationResult.m_path = [] := by simpa using hmap
      simpa using this
    subst hres
    exact ⟨rfl, rfl⟩

/-- C5 witness: a mixed digests dict with one skip entry and one real
entry over an unreadable file system. -/
theorem compareDigests_skip_semantics_witness :
    ∃ b results,
      compareDigests hlTest (fun _ => none) "/r"
        [("/a", "skip:<none>"), ("/b", "sha256:d0")] = .ok (b, results) ∧
      b = results.all DigestVerificationResult.matches ∧
      (∀ pd ∈ [("/a", "skip:<none>"), ("/b", "sha256:d0")], isSkipDigest pd.2 = true →
        ∀ r ∈ results, r.m_path ≠ pd.1) ∧
      ((∀ pd ∈ [("/a", "skip:<none>"), ("/b", "sha256:d0")], isSkipDigest pd.2 = true) →
        (b = true ∧ results = [])) :=
  compareDigests_skip_semantics hlTest (fun _ => none) "/r"
    [("/a", "skip:<none>"), ("/b", "sha256:d0")] (by rfl) (by decide)

/-- C2 counterexample: the claim says an IOError during the rule-file
digest check is converted into a non-matching result and never
propagated; in _checkDigest the file open has no handler, so with a
valid digest spec and a missing file the IOError propagates out. -/
theorem checkDigest_ioError_propagates_cex :
    checkDigest hlTest (fun _ => none) "/r" "pkg" "/a.rules" "sha256:00" =
      .error (.ioError (ioErrMsg "/r/a.rules")) := rfl

/-- C2 amended: the IOError-to-mismatch conversion holds for
AuditEntry.compareDigests: on a validated digests dict it never raises
for any file system, and an unreadable path yields an "error:..."
encountered value that can never equal a hex digest, hence a non-match;
in PolkitCheck._checkDigest, however, the IOError propagates out. -/
theorem digest_ioError_soft_amended :
    (∀ (hl : Hashlib) (fs : FileSys) (dirName : String)
      (digests : List (String × String)),
      verifyDigests hl digests = .ok () →
      ∃ pr, compareDigests hl fs dirName digests = .ok pr) ∧
    (∀ (hl : Hashlib) (fs : FileSys) (dirName p : String) (alg hex : List Char),
      hl.supported (String.mk alg) = true → ':' ∉ alg → ':' ∉ hex →
      isSkipDigest (String.mk (alg ++ ':' :: hex)) = false →
      fs (dirName ++ p) = none →
      compareDigests hl fs dirName [(p, String.mk (alg ++ ':' :: hex))] =
        .ok (false, [⟨p, String.mk alg, String.mk hex,
          "error:" ++ ioErrMsg (dirName ++ p)⟩]) ∧
      (∀ s : String, (∀ c ∈ s.data, isHexDigitChar c = true) →
        ("error:" ++ ioErrMsg (dirName ++ p)) ≠ s)) ∧
    (∀ (hl : Hashlib) (fs : FileSys) (dirName pkgName p : String) (alg hex : List Char),
      hl.supported (String.mk alg) = true → ':' ∉ alg →
      fs (dirName ++ p) = none →
      checkDigest hl fs dirName pkgName p (String.mk (alg ++ ':' :: hex)) =
        .error (.ioError (ioErrMsg (dirName ++ p)))) := by
  refine ⟨?_, ?_, ?_⟩
  · intro hl fs dirName digests hval
    obtain ⟨results, haux, -⟩ := compareDigestsAux_ok hl fs dirName digests hval
    refine ⟨(results.all DigestVerificationResult.matches, results), ?_⟩
    unfold compareDigests
    rw [haux]
  · intro hl fs dirName p alg hex hsup hna hnh hns hio
    have hcolon : ':' ∈ ("error:" ++ ioErrMsg (dirName ++ p)).data := by
      rw [String.data_append]
      exact List.mem_append_left _ (by decide)
    have hnever : ∀ s : String, (∀ c ∈ s.data, isHexDigitChar c = true) →
        ("error:" ++ ioErrMsg (dirName ++ p)) ≠ s := by
      intro s hhex heq
      have hmem : ':' ∈ s.data := by rw [← heq]; exact hcolon
      exact absurd (hhex ':' hmem) (by decide)
    refine ⟨?_, hnever⟩
    have hsplit : pySplit1Char ':' (String.mk (alg ++ ':' :: hex)).data = [alg, hex] :=
      pySplit1Char_append ':' alg hex hna
    have hmat : (String.mk hex == ("error:" ++ ioErrMsg (dirName ++ p))) = false := by
      rw [beq_eq_false_iff_ne]
      intro heq
      have hd : hex = ("error:" ++ ioErrMsg (dirName ++ p)).data := congrArg String.data heq
      rw [← hd] at hcolon
      exact hnh hcolon
    simp only [compareDigests, compareDigestsAux, hns, Bool.false_eq_true, if_false,
      hsplit, hsup, if_true, hio, List.all_cons, List.all_nil,
      DigestVerificationResult.matches, hmat, Bool.false_and, Bool.and_true]
  · intro hl fs dirName pkgName p alg hex hsup hna hio
    have hne : String.mk (alg ++ ':' :: hex) ≠ "" := by
      intro h
      have : alg ++ ':' :: hex = ([] : List Char) := congrArg String.data h
      exact absurd this (by simp)
    have hsplit : pySplit1Char ':' (String.mk (alg ++ ':' :: hex)).data = [alg, hex] :=
      pySplit1Char_append ':' alg hex hna
    simp only [checkDigest, if_neg hne, hsplit, hsup, if_true, hio]

/-- C2 witness: the amended statement applied to a concrete registry,
an unreadable file system and the spec "sha256:aa". -/
theorem digest_ioError_soft_amended_witness :
    (∃ pr, compareDigests hlTest (fun _ => none) "/r" [("/f", "sha256:aa")] = .ok pr) ∧
    compareDigests hlTest (fun _ => none) "/r" [("/f", "sha256:aa")] =
      .ok (false, [⟨"/f", "sha256", "aa", "error:" ++ ioErrMsg "/r/f"⟩]) ∧
    checkDigest hlTest (fun _ => none) "/r" "pkg" "/f" "sha256:aa" =
      .error (.ioError (ioErrMsg "/r/f")) :=
  ⟨digest_ioError_soft_amended.1 hlTest (fun _ => none) "/r" [("/f", "sha256:aa")] rfl,
   (digest_ioError_soft_amended.2.1 hlTest (fun _ => none) "/r" "/f"
     "sha256".data "aa".data rfl (by decide) (by decide) rfl rfl).1,
   digest_ioError_soft_amended.2.2 hlTest (fun _ => none) "/r" "pkg" "/f"
     "sha256".data "aa".data rfl (by decide) rfl⟩

/-- C6 counterexample: the claim says an empty hex digest such as
"sha256:" causes a hard parse-time failure; setDigests accepts it
(the split yields two pieces and the algorithm is recognized, the hex
part is never checked for non-emptiness). -/
theorem setDigests_empty_hex_accepted_cex :
    AuditEntry.setDigests hlTest ⟨"bsc#1", "", []⟩ [("/f", "sha256:")] =
      .ok ⟨"bsc#1", "", [("/f", "sha256:")]⟩ := rfl

/-- C6 amended: a digest spec is accepted exactly when it is the skip
sentinel, or it has exactly one ":" separating an algorithm recognized
by the hash registry from an arbitrary (possibly empty) hex part; and
setDigests on a one-entry dict succeeds exactly when the path is
absolute and the digest spec is accepted. -/
theorem digest_spec_acceptance_amended :
    (∀ (hl : Hashlib) (d : String),
      verifyDigestSyntax hl d = .ok () ↔
        (isSkipDigest d = true ∨
          ∃ alg hex : List Char, d.data = alg ++ ':' :: hex ∧ ':' ∉ alg ∧ ':' ∉ hex ∧
            hl.supported (String.mk alg) = true)) ∧
    (∀ (hl : Hashlib) (e : AuditEntry) (p d : String),
      AuditEntry.setDigests hl e [(p, d)] = .ok { e with m_digests := [(p, d)] } ↔
        (pyStartsWith p "/" = true ∧ verifyDigestSyntax hl d = .ok ())) := by
  constructor
  · intro hl d
    by_cases hsk : isSkipDigest d = true
    · constructor
      · intro _
        exact Or.inl hsk
      · intro _
        unfold verifyDigestSyntax
        rw [hsk]
        rfl
    · have hsk' : isSkipDigest d = false := by simpa using hsk
      constructor
      · intro h
        obtain ⟨alg, hex, he, hna, hnh, hsup⟩ :=
          verifyDigestSyntax_ok_not_skip hl d hsk' h
        exact Or.inr ⟨alg, hex, he, hna, hnh, hsup⟩
      · rintro (h | ⟨alg, hex, he, hna, hnh, hsup⟩)
        · rw [h] at hsk'
          exact absurd hsk' (by simp)
        · have hsplit : pySplitChar ':' d.data = [alg, hex] :=
            (pySplitChar_pair_iff ':' d.data alg hex).mpr ⟨he, hna, hnh⟩
          simp only [verifyDigestSyntax, hsk', Bool.false_eq_true, if_false,
            hsplit, hsup, if_true]
  · intro hl e p d
    constructor
    · intro h
      cases hv : verifyDigests hl [(p, d)] with
      | error err =>
        exfalso
        unfold AuditEntry.setDigests at h
        rw [hv] at h
        exact absurd h (by simp)
      | ok u =>
        obtain ⟨hp, hd, -⟩ := verifyDigests_cons hl p d [] hv
        refine ⟨?_, hd⟩
        by_cases hps : pyStartsWith p "/" = true
        · exact hps
        · exfalso
          have hps' : pyStartsWith p "/" = false := by simpa using hps
          simp [verifyPath, hps'] at hp
    · rintro ⟨hps, hd⟩
      have hv : verifyDigests hl [(p, d)] = .ok () := by
        simp only [verifyDigests, verifyPath, hps, if_true, hd]
      simp only [AuditEntry.setDigests, hv]

/-- C7: constructing an AuditEntry succeeds exactly when the bug id has
exactly one "#" separating a recognized tracker tag from a nonempty
all-digits suffix; in particular "bsc1234" and "xyz#1234" fail with a
validation error and "bsc#1234" succeeds. -/
theorem bug_nr_validation :
    (∀ bug : String,
      (∃ e, AuditEntry.make bug = .ok e) ↔
        (∃ pre num : List Char, bug.data = pre ++ '#' :: num ∧ '#' ∉ pre ∧ '#' ∉ num ∧
          String.mk pre ∈ recognizedTrackers ∧ num ≠ [] ∧
          ∀ c ∈ num, c.isDigit = true)) ∧
    AuditEntry.make "bsc1234" = .error (.exception "Bad bug nr# 'bsc1234'") ∧
    AuditEntry.make "xyz#1234" = .error (.exception "Bad bug nr# 'xyz#1234'") ∧
    AuditEntry.make "bsc#1234" = .ok ⟨"bsc#1234", "", []⟩ := by
  refine ⟨?_, rfl, rfl, rfl⟩
  intro bug
  have hmk : (∃ e, AuditEntry.make bug = .ok e) ↔ verifyBugNr bug = true := by
    unfold AuditEntry.make
    by_cases hv : verifyBugNr bug = true
    · simp [hv]
    · simp [hv]
  rw [hmk]
  cases hsp : pySplitChar '#' bug.data with
  | nil => exact absurd hsp (pySplitChar_ne_nil _ _)
  | cons x t =>
    cases t with
    | nil =>
      constructor
      · intro h
        exfalso
        unfold verifyBugNr at h
        rw [hsp] at h
        simp at h
      · rintro ⟨pre, num, he, hpre, hnum, -, -, -⟩
        exfalso
        have hps : pySplitChar '#' bug.data = [pre, num] :=
          (pySplitChar_pair_iff '#' bug.data pre num).mpr ⟨he, hpre, hnum⟩
        rw [hsp] at hps
        simp at hps
    | cons y t' =>
      cases t' with
      | cons z t'' =>
        constructor
        · intro h
          exfalso
          unfold verifyBugNr at h
          rw [hsp] at h
          simp at h
        · rintro ⟨pre, num, he, hpre, hnum, -, -, -⟩
          exfalso
          have hps : pySplitChar '#' bug.data = [pre, num] :=
            (pySplitChar_pair_iff '#' bug.data pre num).mpr ⟨he, hpre, hnum⟩
          rw [hsp] at hps
          simp at hps
      | nil =>
        obtain ⟨he, hx, hy⟩ := (pySplitChar_pair_iff '#' bug.data x y).mp hsp
        constructor
        · intro h
          unfold verifyBugNr at h
          rw [hsp] at h
          simp only [Bool.and_eq_true] at h
          obtain ⟨hc, hd⟩ := h
          refine ⟨x, y, he, hx, hy, ?_, ?_, ?_⟩
          · simpa [List.contains, List.elem_iff] using hc
          · have := hd
            simp only [pyIsdigit, Bool.and_eq_true, Bool.not_eq_true'] at this
            intro hne
            rw [hne] at this
            simp at this
          · have := hd
            simp only [pyIsdigit, Bool.and_eq_true, List.all_eq_true] at this
            exact this.2
        · rintro ⟨pre, num, he', hpre, hnum, hm, hne, hdig⟩
          have hps : pySplitChar '#' bug.data = [pre, num] :=
            (pySplitChar_pair_iff '#' bug.data pre num).mpr ⟨he', hpre, hnum⟩
          rw [hsp] at hps
          obtain ⟨rfl, rfl⟩ : x = pre ∧ y = num := by simpa using hps
          unfold verifyBugNr
          rw [hsp]
          simp only [Bool.and_eq_true]
          refine ⟨?_, ?_⟩
          · simpa [List.contains, List.elem_iff] using hm
          · simp only [pyIsdigit, Bool.and_eq_true, Bool.not_eq_true',
              List.all_eq_true]
            exact ⟨by simpa [List.isEmpty_iff] using hne, hdig⟩

/-- C4 counterexample: the claim says an unresolvable digest algorithm
fails whitelist loading at parse time for both schemas; the flat
rules-whitelist parser stores the entry with the unknown algorithm
"sha9999" without any failure or validation. -/
theorem rules_whitelist_accepts_bad_alg_cex :
    parseRulesWhitelistEntry [] badAlgEntry =
      ([("/etc/polkit-1/rules.d/90-x.rules",
        [("pkg", ⟨false, some [⟨"bsc#1", "c", "sha9999:deadbeef"⟩]⟩)])], false) ∧
    rulesLookup (parseRulesWhitelistEntry [] badAlgEntry).1
      "/etc/polkit-1/rules.d/90-x.rules" "pkg" =
      some ⟨false, some [⟨"bsc#1", "c", "sha9999:deadbeef"⟩]⟩ ∧
    hlTest.supported "sha9999" = false :=
  ⟨rfl, rfl, rfl⟩

/-- C4 amended: only the audit-map whitelist schema rejects an
unrecognized digest algorithm at parse time; the flat rules-whitelist
schema stores entries without digest validation, and the unknown
algorithm is detected only at check time, where _checkDigest yields a
non-match without raising. -/
theorem bad_alg_parse_time_amended :
    (∀ (hl : Hashlib) (pkg : String) (alg hex : List Char),
      hl.supported (String.mk alg) = false → ':' ∉ alg → ':' ∉ hex →
      isSkipDigest (String.mk (alg ++ ':' :: hex)) = false →
      parseWhitelist hl
        [(pkg, ⟨[("bsc#1", ⟨none, [("/f", String.mk (alg ++ ':' :: hex))]⟩)]⟩)] [] =
        .error (.exception
          ("Bad digest algorithm in " ++ String.mk (alg ++ ':' :: hex)))) ∧
    (∀ e : RulesEntryJson,
      parseRulesWhitelistEntry [] e =
        ([(e.path, [(e.package, ⟨e.skipDigestCheck, e.audits⟩)])], false)) ∧
    (∀ (hl : Hashlib) (fs : FileSys) (dirName pkgName p : String) (alg hex : List Char),
      hl.supported (String.mk alg) = false → ':' ∉ alg →
      checkDigest hl fs dirName pkgName p (String.mk (alg ++ ':' :: hex)) = .ok false) := by
  refine ⟨?_, ?_, ?_⟩
  · intro hl pkg alg hex hsup hna hnh hns
    have hsplit : pySplitChar ':' (String.mk (alg ++ ':' :: hex)).data = [alg, hex] :=
      (pySplitChar_pair_iff ':' _ alg hex).mpr ⟨rfl, hna, hnh⟩
    have hvds : verifyDigestSyntax hl (String.mk (alg ++ ':' :: hex)) =
        .error (.exception
          ("Bad digest algorithm in " ++ String.mk (alg ++ ':' :: hex))) := by
      simp only [verifyDigestSyntax, hns, Bool.false_eq_true, if_false, hsplit,
        hsup]
    have hvd : verifyDigests hl [("/f", String.mk (alg ++ ':' :: hex))] =
        .error (.exception
          ("Bad digest algorithm in " ++ String.mk (alg ++ ':' :: hex))) := by
      simp only [verifyDigests, hvds]
      rfl
    have hpa : parseAuditEntry hl "bsc#1"
        ⟨none, [("/f", String.mk (alg ++ ':' :: hex))]⟩ =
        .error (.exception
          ("Bad digest algorithm in " ++ String.mk (alg ++ ':' :: hex))) := by
      simp only [parseAuditEntry, AuditEntry.setDigests, hvd]
      rfl
    simp only [parseWhitelist, parseWhitelistEntry, parseAudits, hpa]
    rfl
  · intro e
    rfl
  · intro hl fs dirName pkgName p alg hex hsup hna
    have hne : String.mk (alg ++ ':' :: hex) ≠ "" := by
      intro h
      have : alg ++ ':' :: hex = ([] : List Char) := congrArg String.data h
      exact absurd this (by simp)
    have hsplit : pySplit1Char ':' (String.mk (alg ++ ':' :: hex)).data = [alg, hex] :=
      pySplit1Char_append ':' alg hex hna
    simp only [checkDigest, if_neg hne, hsplit, hsup, Bool.false_eq_true, if_false]

/-- C4 witness: the amended statement at the concrete registry that
knows only sha256 and the spec "sha9999:deadbeef". -/
theorem bad_alg_parse_time_amended_witness :
    parseWhitelist hlTest
      [("pkg", ⟨[("bsc#1", ⟨none, [("/f", "sha9999:deadbeef")]⟩)]⟩)] [] =
      .error (.exception ("Bad digest algorithm in " ++ "sha9999:deadbeef")) ∧
    parseRulesWhitelistEntry [] badAlgEntry =
      ([(badAlgEntry.path, [(badAlgEntry.package,
        ⟨badAlgEntry.skipDigestCheck, badAlgEntry.audits⟩)])], false) ∧
    checkDigest hlTest (fun _ => none) "/r" "pkg" "/f" "sha9999:deadbeef" = .ok false :=
  ⟨bad_alg_parse_time_amended.1 hlTest "pkg" "sha9999".data "deadbeef".data
     rfl (by decide) (by decide) rfl,
   bad_alg_parse_time_amended.2.1 badAlgEntry,
   bad_alg_parse_time_amended.2.2 hlTest (fun _ => none) "/r" "pkg" "/f"
     "sha9999".data "deadbeef".data rfl (by decide)⟩

/-- C9 counterexample: the claim says looking up a declared
(path, package) pair yields exactly one matching WhitelistEntry; when
one package claims the same path from two audit entries,
WhitelistParser.parse appends the same entry twice to the path's list,
so the lookup yields two matching entries (and no duplicate diagnostic
exists in that parser). -/
theorem parse_duplicate_path_entries_cex :
    parseWhitelist hlTest dupDocW [] = .ok [("/a", [dupEntryW, dupEntryW])] ∧
    alistLookup [("/a", [dupEntryW, dupEntryW])] "/a" = some [dupEntryW, dupEntryW] ∧
    dupEntryW.m_package = "pkg" ∧
    ([dupEntryW, dupEntryW].filter (fun en => en.m_package == "pkg")).length = 2 :=
  ⟨rfl, rfl, rfl, rfl⟩

/-- C9 amended: in the flat rules-whitelist schema a duplicate
(path, package) claim is reported and discarded so the first wins, and
a fresh claim is stored and retrievable with its original data, all
other pairs untouched; in the audit-map schema (Whitelisting.py) the
path index instead lists a package's entry once per audit that claims
the path, so the same (path, package) pair can resolve to several
(identical) entries and no duplicate diagnostic is emitted. -/
theorem whitelist_lookup_amended :
    (∀ (rules : RulesIndex) (e : RulesEntryJson) (v : RulesPkgData),
      rulesLookup rules e.path e.package = some v →
      parseRulesWhitelistEntry rules e = (rules, true)) ∧
    (∀ (rules : RulesIndex) (e : RulesEntryJson),
      rulesLookup rules e.path e.package = none →
      (parseRulesWhitelistEntry rules e).2 = false ∧
      rulesLookup (parseRulesWhitelistEntry rules e).1 e.path e.package =
        some ⟨e.skipDigestCheck, e.audits⟩ ∧
      (∀ p q : String, ¬(p = e.path ∧ q = e.package) →
        rulesLookup (parseRulesWhitelistEntry rules e).1 p q = rulesLookup rules p q)) ∧
    parseWhitelist hlTest dupDocW [] = .ok [("/a", [dupEntryW, dupEntryW])] := by
  refine ⟨?_, ?_, rfl⟩
  · intro rules e v hv
    unfold rulesLookup at hv
    cases hl1 : alistLookup rules e.path with
    | none => rw [hl1] at hv; simp at hv
    | some pd =>
      simp only [hl1] at hv
      simp only [parseRulesWhitelistEntry, hl1, Option.getD_some, hv]
  · intro rules e hv
    unfold rulesLookup at hv
    cases hl1 : alistLookup rules e.path with
    | none =>
      have hstep : parseRulesWhitelistEntry rules e =
          (alistSet rules e.path [(e.package, ⟨e.skipDigestCheck, e.audits⟩)], false) := by
        simp only [parseRulesWhitelistEntry, hl1, Option.getD_none, alistLookup,
          List.nil_append]
      refine ⟨by rw [hstep], ?_, ?_⟩
      · rw [hstep]
        simp only [rulesLookup, alistLookup_set_self]
        simp [alistLookup]
      · intro p q hpq
        rw [hstep]
        by_cases hp : p = e.path
        · subst hp
          have hq : q ≠ e.package := fun h => hpq ⟨rfl, h⟩
          simp only [rulesLookup, alistLookup_set_self, hl1]
          simp [alistLookup, Ne.symm hq]
        · simp only [rulesLookup, alistLookup_set_other rules e.path p _ hp]
    | some pd =>
      simp only [hl1] at hv
      have hstep : parseRulesWhitelistEntry rules e =
          (alistSet rules e.path
            (pd ++ [(e.package, ⟨e.skipDigestCheck, e.audits⟩)]), false) := by
        simp only [parseRulesWhitelistEntry, hl1, Option.getD_some, hv]
      refine ⟨by rw [hstep], ?_, ?_⟩
      · rw [hstep]
        simp only [rulesLookup, alistLookup_set_self]
        exact alistLookup_append_self pd e.package _ hv
      · intro p q hpq
        rw [hstep]
        by_cases hp : p = e.path
        · subst hp
          have hq : q ≠ e.package := fun h => hpq ⟨rfl, h⟩
          simp only [rulesLookup, alistLookup_set_self, hl1]
          exact alistLookup_append_other pd e.package q _ hq
        · simp only [rulesLookup, alistLookup_set_other rules e.path p _ hp]

/-- C9 witness: a duplicate flat-schema claim is discarded with a
diagnostic (first wins), and a fresh claim becomes retrievable. -/
theorem whitelist_lookup_amended_witness :
    parseRulesWhitelistEntry [("/a", [("pkg", ⟨true, none⟩)])]
      ⟨"/a", "pkg", false, none⟩ = ([("/a", [("pkg", ⟨true, none⟩)])], true) ∧
    rulesLookup (parseRulesWhitelistEntry [] ⟨"/a", "pkg", false, none⟩).1 "/a" "pkg" =
      some ⟨false, none⟩ :=
  ⟨whitelist_lookup_amended.1 [("/a", [("pkg", ⟨true, none⟩)])]
     ⟨"/a", "pkg", false, none⟩ ⟨true, none⟩ rfl,
   (whitelist_lookup_amended.2.1 [] ⟨"/a", "pkg", false, none⟩ rfl).2.1⟩

end Polkit
